import Mathlib

/-!
Verification of the filter-validation, predicate-compilation and caching core of
the `nfl-trends-api` repository (FastAPI + SQLAlchemy + cachetools).

The development shallowly embeds, straight from the Python sources:

* `app/cache.py` — the weekly-trends LRU cache (a `cachetools.LRUCache`),
  its protected-key clearing logic and `generate_cache_key`
  (`json.dumps(data, sort_keys=True)` followed by SHA-256);
* `app/routers/games.py::get_games` — the home/away matchup resolution for
  team names and team abbreviations, month filters (discrete and range), sort
  validation, pagination and the response envelope;
* `app/routers/trends.py::get_trends` — month filters (discrete list,
  null-sentinel and ordinal range with OR-combination), the spread tri-state
  filter, the win-percentage filter, sort validation, pagination and the
  response envelope.

SQL conditions are modelled as a small syntax of condition trees evaluated
against explicit row records, with SQL's null comparison semantics
(`col = v` is false on a NULL column, `IN` never matches NULL,
`col == None` in SQLAlchemy renders as `IS NULL`).  Variadic SQLAlchemy
`and_(*xs)` / `or_(*xs)` are folded into binary nodes; the sources only ever
apply them to non-empty argument lists, where the fold is semantically exact.

Python truthiness (`if filters.month:` treats `None`, `""`, `0`, `0.0` and
`[]` as false) is modelled explicitly wherever the sources branch on it.
-/

namespace NflTrendsApi

/-! ## Python-style union values and truthiness -/

/-- A Python `Union[str, List[str]]` filter value. -/
inductive StrOrList where
  | one (s : String)
  | many (l : List String)
deriving DecidableEq, Repr

/-- Truthiness of a `Union[str, List[str]]` value: `""` and `[]` are falsy. -/
def StrOrList.truthy : StrOrList → Bool
  | .one s => s ≠ ""
  | .many l => !l.isEmpty

/-- The value as Python's `[value] if isinstance(value, str) else value`. -/
def StrOrList.toList : StrOrList → List String
  | .one s => [s]
  | .many l => l

/-- A Python `Union[int, List[int]]` filter value. -/
inductive IntOrList where
  | one (n : Nat)
  | many (l : List Nat)
deriving DecidableEq, Repr

/-- The value as Python's `[value] if isinstance(value, int) else value`. -/
def IntOrList.toList : IntOrList → List Nat
  | .one n => [n]
  | .many l => l

/-- A Python `Union[float, List[float]]` filter value (floats as exact rationals). -/
inductive RatOrList where
  | one (q : ℚ)
  | many (l : List ℚ)
deriving DecidableEq, Repr

/-- Truthiness of a `Union[float, List[float]]` value: `0.0` and `[]` are falsy. -/
def RatOrList.truthy : RatOrList → Bool
  | .one q => decide (q ≠ 0)
  | .many l => !l.isEmpty

/-- Truthiness of an `Optional[str]`: `None` and `""` are falsy. -/
def optStrTruthy : Option String → Bool
  | none => false
  | some s => s ≠ ""

/-! ## `app/cache.py` — cache instances and key generation

`weekly_trends_cache = LRUCache(maxsize=100)` from `cachetools`.  An
`LRUCache` keeps entries in recency order; `__getitem__`/`get` of a present
key marks it most recently used; `__setitem__` of a present key overwrites
and marks it most recently used; `__setitem__` of a new key first evicts
least-recently-used entries while the cache is full, then inserts the new
entry as most recently used; nothing exempts any particular key from that
eviction.  We model the recency order as a list, least recently used first. -/

/-- A `cachetools.LRUCache`: bounded map with least-recently-used eviction.
`entries` is ordered least recently used first. -/
structure LRUCache (κ ν : Type) where
  maxsize : Nat
  entries : List (κ × ν)
deriving DecidableEq, Repr

/-- Membership test `key in cache` — cachetools membership does not touch recency. -/
def LRUCache.containsKey [DecidableEq κ] (c : LRUCache κ ν) (k : κ) : Bool :=
  c.entries.any (fun e => decide (e.1 = k))

/-- Lookup `cache.get(key)` — on a hit, the entry becomes most recently used. -/
def LRUCache.get [DecidableEq κ] (c : LRUCache κ ν) (k : κ) :
    Option ν × LRUCache κ ν :=
  match c.entries.find? (fun e => decide (e.1 = k)) with
  | none => (none, c)
  | some (_, v) =>
      (some v,
       { c with entries := c.entries.filter (fun e => decide (e.1 ≠ k)) ++ [(k, v)] })

/-- Assignment `cache[key] = value` — overwrite-and-touch if present; otherwise evict
least-recently-used entries while full, then insert as most recently used. -/
def LRUCache.put [DecidableEq κ] (c : LRUCache κ ν) (k : κ) (v : ν) : LRUCache κ ν :=
  if c.entries.any (fun e => decide (e.1 = k)) then
    { c with entries := c.entries.filter (fun e => decide (e.1 ≠ k)) ++ [(k, v)] }
  else
    { c with
      entries :=
        (if c.entries.length + 1 > c.maxsize then
          c.entries.drop (c.entries.length + 1 - c.maxsize)
        else c.entries) ++ [(k, v)] }

/-- Clearing via `cache.clear()`. -/
def LRUCache.clearAll (c : LRUCache κ ν) : LRUCache κ ν :=
  { c with entries := [] }

/-- The constant `INITIAL_WEEKLY_TRENDS_KEY` from `app/cache.py`. -/
def INITIAL_WEEKLY_TRENDS_KEY : String :=
  "0d0aeea50e84aae522b2f54ed54f14cd9f9b651b6cb50dd6aa873441282851e9"

/-- The freshly constructed `weekly_trends_cache = LRUCache(maxsize=100)`. -/
def weekly_trends_cache_empty (ν : Type) : LRUCache String ν := ⟨100, []⟩

/-- Function `set_weekly_trends_cache(cache_key, data)`. -/
def set_weekly_trends_cache (cache_key : String) (data : ν)
    (c : LRUCache String ν) : LRUCache String ν :=
  c.put cache_key data

/-- Function `set_initial_weekly_trends_cache(data)` — stores under the fixed key.
Its docstring: "This entry should never be removed." -/
def set_initial_weekly_trends_cache (data : ν) (c : LRUCache String ν) :
    LRUCache String ν :=
  c.put INITIAL_WEEKLY_TRENDS_KEY data

/-- Function `get_weekly_trends_from_cache(cache_key)` (returns value and the touched cache). -/
def get_weekly_trends_from_cache (cache_key : String) (c : LRUCache String ν) :
    Option ν × LRUCache String ν :=
  c.get cache_key

/-- Function `clear_weekly_trends_cache(preserve_initial)` — when preserving and the
protected key is present, save its value, clear everything, then restore it. -/
def clear_weekly_trends_cache (preserve_initial : Bool) (c : LRUCache String ν) :
    LRUCache String ν :=
  if preserve_initial && c.containsKey INITIAL_WEEKLY_TRENDS_KEY then
    match c.entries.find? (fun e => decide (e.1 = INITIAL_WEEKLY_TRENDS_KEY)) with
    | some (_, initial_data) =>
        (c.clearAll).put INITIAL_WEEKLY_TRENDS_KEY initial_data
    | none => c.clearAll
  else
    c.clearAll

/-! ## `app/routers/games.py` — home/away matchup resolution

The two code blocks at lines 1336–1373 (team names) and 1379–1416
(abbreviations) of `get_games` build a SQL condition over a *pair* of
columns.  We embed the condition language over an abstract column pair and
transcribe each block separately. -/

/-- One of the two columns of a paired home/away filter family. -/
inductive PairCol where
  | home
  | away
deriving DecidableEq, Repr

/-- A SQL condition over a pair of string columns. -/
inductive PairCond where
  | eqV (c : PairCol) (v : String)
  | inV (c : PairCol) (vs : List String)
  | and2 (a b : PairCond)
  | or2 (a b : PairCond)
deriving DecidableEq, Repr

/-- Value of a pair column in a row whose home/away column values are `h`/`a`. -/
def PairCol.value (h a : String) : PairCol → String
  | .home => h
  | .away => a

/-- Evaluate a pair condition over a row with home column `h`, away column `a`. -/
def PairCond.eval (h a : String) : PairCond → Bool
  | .eqV c v => PairCol.value h a c == v
  | .inV c vs => vs.contains (PairCol.value h a c)
  | .and2 x y => x.eval h a && y.eval h a
  | .or2 x y => x.eval h a || y.eval h a

/-- Helper `normalize_to_list` from `get_games`: a list is returned as is (even when
empty), a truthy scalar is wrapped, anything else gives `[]`. -/
def normalize_to_list : Option StrOrList → List String
  | some (.many l) => l
  | some (.one s) => if s ≠ "" then [s] else []
  | none => []

/-- Python `len(set(xs)) == 1`. -/
def pySetLen1 (xs : List String) : Bool :=
  xs.dedup.length == 1

/-- Python `set(xs) == set(ys)`. -/
def pySetEq (xs ys : List String) : Bool :=
  xs.all (fun x => ys.contains x) && ys.all (fun y => xs.contains y)

/-- Lines 1336–1373 of `get_games`: resolution of the
(`home_team`, `away_team`) filter pair into a condition (or none). -/
def resolve_team_matchup (home_teams away_teams : List String) :
    Option PairCond :=
  if !home_teams.isEmpty && !away_teams.isEmpty then
    if pySetLen1 home_teams && pySetLen1 away_teams
        && pySetEq home_teams away_teams then
      -- Scenario 1: all games involving any of the teams
      some (.or2 (.inV .home home_teams) (.inV .away away_teams))
    else if home_teams.length == 1 && away_teams.length == 1 then
      -- Scenario 2: specific home vs away matchup
      some (.and2 (.eqV .home (home_teams.headD ""))
                  (.eqV .away (away_teams.headD "")))
    else
      -- Scenario 3: all matchups between these two teams, any home/away
      some (.or2 (.and2 (.inV .home home_teams) (.inV .away away_teams))
                 (.and2 (.inV .home away_teams) (.inV .away home_teams)))
  else if !home_teams.isEmpty then
    some (.inV .home home_teams)
  else if !away_teams.isEmpty then
    some (.inV .away away_teams)
  else
    none

/-- Lines 1379–1416 of `get_games`: resolution of the
(`home_abbreviation`, `away_abbreviation`) filter pair into a condition. -/
def resolve_abbreviation_matchup (home_abbreviations away_abbreviations : List String) :
    Option PairCond :=
  if !home_abbreviations.isEmpty && !away_abbreviations.isEmpty then
    if pySetLen1 home_abbreviations && pySetLen1 away_abbreviations
        && pySetEq home_abbreviations away_abbreviations then
      -- Scenario 1: all games involving any of the teams
      some (.or2 (.inV .home home_abbreviations) (.inV .away away_abbreviations))
    else if home_abbreviations.length == 1 && away_abbreviations.length == 1 then
      -- Scenario 2: specific home vs away matchup
      some (.and2 (.eqV .home (home_abbreviations.headD ""))
                  (.eqV .away (away_abbreviations.headD "")))
    else
      -- Scenario 3: all matchups between these two teams, any home/away
      some (.or2 (.and2 (.inV .home home_abbreviations) (.inV .away away_abbreviations))
                 (.and2 (.inV .home away_abbreviations) (.inV .away home_abbreviations)))
  else if !home_abbreviations.isEmpty then
    some (.inV .home home_abbreviations)
  else if !away_abbreviations.isEmpty then
    some (.inV .away away_abbreviations)
  else
    none

/-! ## `app/routers/trends.py` — the trends filter compiler and executor -/

/-- The dict `MONTH_MAPPING` (identical dicts at the top of `trends.py` and `games.py`).
The sources only ever index it at validator-approved month names, where this
total function agrees with the Python dict. -/
def MONTH_MAPPING (m : String) : Nat :=
  if m == "January" then 1
  else if m == "February" then 2
  else if m == "March" then 3
  else if m == "April" then 4
  else if m == "May" then 5
  else if m == "June" then 6
  else if m == "July" then 7
  else if m == "August" then 8
  else if m == "September" then 9
  else if m == "October" then 10
  else if m == "November" then 11
  else if m == "December" then 12
  else 0

/-- A row of the `trends` table (`app/models/trend.py`; the per-game trend
tables of `app/models/game_trend.py` share the schema with the categorical
columns nullable, which the filter code treats as nullable throughout). -/
structure TrendRow where
  id : String
  id_string : String
  category : String
  month : Option String
  day_of_week : Option String
  divisional : Option Bool
  spread : Option String
  total : Option String
  seasons : String
  wins : Int
  losses : Int
  pushes : Int
  total_games : Int
  win_percentage : ℚ
  trend_string : String
deriving DecidableEq, Repr

/-- The filtering `month_case` of `get_trends` (and `get_games`): CASE WHEN
month = 'January' THEN 1 … ELSE 0.  A NULL month fails every WHEN comparison
and takes the ELSE branch. -/
def month_case_filter : Option String → Nat
  | none => 0
  | some m => MONTH_MAPPING m

/-- The sorting `month_case` of `get_trends`/`get_games`: months 1–12,
`month IS NULL` → 13, any other value → 14. -/
def month_case_sort (m : Option String) : Nat :=
  match m with
  | none => 13
  | some s => if MONTH_MAPPING s ≠ 0 then MONTH_MAPPING s else 14

/-- The sorting `day_case` of `get_trends`: Sunday=1 … Saturday=7, NULL=8, else 9. -/
def trends_day_case_sort (d : Option String) : Nat :=
  match d with
  | none => 8
  | some s =>
    if s == "Sunday" then 1
    else if s == "Monday" then 2
    else if s == "Tuesday" then 3
    else if s == "Wednesday" then 4
    else if s == "Thursday" then 5
    else if s == "Friday" then 6
    else if s == "Saturday" then 7
    else 9

/-- A compiled SQL condition over `TrendRow`, as assembled into
`filters_list` by `get_trends`.  Variadic `and_`/`or_` are folded to binary
nodes (`sql_and`/`sql_or` below). -/
inductive TrendCond where
  | month_eq (v : String)
  | month_is_null
  | month_in (vs : List String)
  | month_not_null
  | month_case_between (lo hi : Nat)
  | month_case_ge (lo : Nat)
  | month_case_le (hi : Nat)
  | spread_in (vs : List String)
  | spread_is_null
  | win_pct_eq (q : ℚ)
  | win_pct_in (qs : List ℚ)
  | win_pct_between (lo hi : ℚ)
  | win_pct_ge (lo : ℚ)
  | win_pct_le (hi : ℚ)
  | andB (a b : TrendCond)
  | orB (a b : TrendCond)
deriving DecidableEq, Repr

/-- Evaluation with SQL null semantics: `col = v` and `col IN (…)` are false
on a NULL column; SQLAlchemy's `col == None` / `col.is_(None)` is `IS NULL`. -/
def TrendCond.eval (r : TrendRow) : TrendCond → Bool
  | .month_eq v => r.month == some v
  | .month_is_null => r.month == none
  | .month_in vs => match r.month with
    | some m => vs.contains m
    | none => false
  | .month_not_null => r.month != none
  | .month_case_between lo hi =>
      decide (lo ≤ month_case_filter r.month) && decide (month_case_filter r.month ≤ hi)
  | .month_case_ge lo => decide (lo ≤ month_case_filter r.month)
  | .month_case_le hi => decide (month_case_filter r.month ≤ hi)
  | .spread_in vs => match r.spread with
    | some s => vs.contains s
    | none => false
  | .spread_is_null => r.spread == none
  | .win_pct_eq q => decide (r.win_percentage = q)
  | .win_pct_in qs => qs.any (fun q => decide (r.win_percentage = q))
  | .win_pct_between lo hi =>
      decide (lo ≤ r.win_percentage) && decide (r.win_percentage ≤ hi)
  | .win_pct_ge lo => decide (lo ≤ r.win_percentage)
  | .win_pct_le hi => decide (r.win_percentage ≤ hi)
  | .andB a b => a.eval r && b.eval r
  | .orB a b => a.eval r || b.eval r

/-- SQLAlchemy `or_(*xs)` on a non-empty argument list, folded to binary. -/
def sql_or : List TrendCond → TrendCond
  | [] => .orB (.month_is_null) (.month_not_null)
  | [c] => c
  | c :: rest => .orB c (sql_or rest)

/-- Lines 752–765 of `get_trends`: the discrete month conditions
(`month_conditions`), honouring the `"None"` null sentinel. -/
def trends_month_conditions (month : Option StrOrList) : List TrendCond :=
  match month with
  | none => []
  | some a =>
    if a.truthy then
      match a with
      | .one s => if s == "None" then [.month_is_null] else [.month_eq s]
      | .many l =>
          let values := l.filter (fun v => v != "None")
          (if !values.isEmpty then [.month_in values] else [])
            ++ (if l.contains "None" then [.month_is_null] else [])
    else []

/-- Lines 767–778 of `get_trends`: the `start_month`/`end_month` range
condition, guarded by `month IS NOT NULL` and expressed through
`month_case_filter` ordinals. -/
def trends_month_range_condition (start_month end_month : Option String) :
    Option TrendCond :=
  if optStrTruthy start_month && optStrTruthy end_month then
    some (.andB .month_not_null
      (.month_case_between (MONTH_MAPPING (start_month.getD ""))
                           (MONTH_MAPPING (end_month.getD ""))))
  else if optStrTruthy start_month then
    some (.andB .month_not_null (.month_case_ge (MONTH_MAPPING (start_month.getD ""))))
  else if optStrTruthy end_month then
    some (.andB .month_not_null (.month_case_le (MONTH_MAPPING (end_month.getD ""))))
  else
    none

/-- Lines 780–789 of `get_trends`: OR-combination of the discrete month
conditions with the range condition. -/
def trends_month_filters (month : Option StrOrList) (start_month end_month : Option String) :
    List TrendCond :=
  let month_conditions := trends_month_conditions month
  match trends_month_range_condition start_month end_month with
  | some range_condition =>
      if !month_conditions.isEmpty then
        [.orB (sql_or month_conditions) range_condition]
      else
        [range_condition]
  | none =>
      if !month_conditions.isEmpty then
        [sql_or month_conditions]
      else
        []

/-- The validated `spread` field: either the literal string `"None"` or a
`SpreadFilter{exact, or_less, or_more}` object. -/
inductive SpreadArg where
  | none_str
  | filt (exact : Option StrOrList) (or_less or_more : Option IntOrList)
deriving DecidableEq, Repr

/-- Lines 819–847 of `get_trends`: the spread filter.  `exact` contributes a
membership condition over its non-`"None"` members and an `IS NULL`
condition when the sentinel is present; `or_less`/`or_more` contribute
membership over the formatted `"{n} or less"`/`"{n} or more"` strings. -/
def trends_spread_filters (spread : Option SpreadArg) : List TrendCond :=
  match spread with
  | none => []
  | some .none_str => [sql_or [.spread_is_null]]
  | some (.filt ex ol om) =>
    let exact_clauses :=
      match ex with
      | none => []
      | some e =>
        if e.truthy then
          let exact_list := e.toList
          let non_null_spreads := exact_list.filter (fun s => s != "None")
          (if !non_null_spreads.isEmpty then [.spread_in non_null_spreads] else [])
            ++ (if exact_list.contains "None" then [.spread_is_null] else [])
        else []
    let or_less_clauses :=
      match ol with
      | none => []
      | some v => [.spread_in (v.toList.map (fun n => Nat.repr n ++ " or less"))]
    let or_more_clauses :=
      match om with
      | none => []
      | some v => [.spread_in (v.toList.map (fun n => Nat.repr n ++ " or more"))]
    let spread_clauses := exact_clauses ++ or_less_clauses ++ or_more_clauses
    if !spread_clauses.isEmpty then [sql_or spread_clauses] else []

/-- Lines 954–959 of `get_trends`: the exact win-percentage filter.  Note the
Python truthiness test `if filters.win_percentage:` — the value `0.0` and the
empty list are falsy. -/
def trends_win_percentage_filters (wp : Option RatOrList) : List TrendCond :=
  match wp with
  | none => []
  | some a =>
    if a.truthy then
      match a with
      | .one q => [.win_pct_eq q]
      | .many l => [.win_pct_in l]
    else []

/-- Lines 609–624 of `trends.py`: `validate_win_percentage` — every number
must lie in the closed 0–100 domain; `None` (the absent field) passes. -/
def validate_win_percentage : Option RatOrList → Bool
  | none => true
  | some (.one q) => decide (0 ≤ q) && decide (q ≤ 100)
  | some (.many l) => l.all (fun q => decide (0 ≤ q) && decide (q ≤ 100))

/-- Lines 961–966 of `get_trends`: the min/max win-percentage range
(`is not None` tests, not truthiness). -/
def trends_win_percentage_range_filters (lo hi : Option ℚ) : List TrendCond :=
  match lo, hi with
  | some a, some b => [.win_pct_between a b]
  | some a, none => [.win_pct_ge a]
  | none, some b => [.win_pct_le b]
  | none, none => []

/-! ### Sorting and the query executor -/

/-- A `SortField` (pydantic model shared by both routers). -/
structure SortField where
  field : String
  order : String := "asc"
deriving DecidableEq, Repr

/-- The column attribute names of the `Trend` model, as computed by
`inspect(Trend).mapper.column_attrs` in `get_trends`. -/
def trend_valid_sort_fields : List String :=
  ["id", "id_string", "category", "month", "day_of_week", "divisional",
   "spread", "total", "seasons", "wins", "losses", "pushes", "total_games",
   "win_percentage", "trend_string"]

/-- Kernel-computable lexicographic comparison of char lists
(code-point order, as both SQL text ordering and Python string ordering are
modelled here). -/
def charsCompare : List Char → List Char → Ordering
  | [], [] => .eq
  | [], _ :: _ => .lt
  | _ :: _, [] => .gt
  | c :: a, d :: b =>
    if c.toNat < d.toNat then .lt
    else if d.toNat < c.toNat then .gt
    else charsCompare a b

/-- String comparison through `charsCompare`. -/
def strCompare (x y : String) : Ordering :=
  charsCompare x.data y.data

/-- Comparison of rationals by cross-multiplication (kernel-computable). -/
def ratCompare (x y : ℚ) : Ordering :=
  compare (x.num * (y.den : Int)) (y.num * (x.den : Int))

/-- Comparison of nullable values: SQL `ASC NULLS LAST` (the PostgreSQL
default; `DESC` flips the whole comparison, giving `NULLS FIRST`). -/
def optCompare (cmp : α → α → Ordering) : Option α → Option α → Ordering
  | none, none => .eq
  | none, some _ => .gt
  | some _, none => .lt
  | some x, some y => cmp x y

/-- Per-column ordering of `get_trends`' ORDER BY: `month` and `day_of_week`
through their CASE ordinals, every other column by its natural order. -/
def trends_compare_field (s : SortField) (a b : TrendRow) : Ordering :=
  let o : Ordering :=
    if s.field == "month" then
      compare (month_case_sort a.month) (month_case_sort b.month)
    else if s.field == "day_of_week" then
      compare (trends_day_case_sort a.day_of_week) (trends_day_case_sort b.day_of_week)
    else if s.field == "id" then strCompare a.id b.id
    else if s.field == "id_string" then strCompare a.id_string b.id_string
    else if s.field == "category" then strCompare a.category b.category
    else if s.field == "divisional" then
      optCompare (fun x y => compare (cond x 1 0) (cond y 1 0)) a.divisional b.divisional
    else if s.field == "spread" then optCompare strCompare a.spread b.spread
    else if s.field == "total" then optCompare strCompare a.total b.total
    else if s.field == "seasons" then strCompare a.seasons b.seasons
    else if s.field == "wins" then compare a.wins b.wins
    else if s.field == "losses" then compare a.losses b.losses
    else if s.field == "pushes" then compare a.pushes b.pushes
    else if s.field == "total_games" then compare a.total_games b.total_games
    else if s.field == "win_percentage" then ratCompare a.win_percentage b.win_percentage
    else if s.field == "trend_string" then strCompare a.trend_string b.trend_string
    else .eq
  if s.order == "desc" then o.swap else o

/-- Multi-key ORDER BY as a boolean "less or equal" on rows. -/
def trends_row_leb (sorts : List SortField) (a b : TrendRow) : Bool :=
  match sorts with
  | [] => true
  | s :: rest =>
    match trends_compare_field s a b with
    | .lt => true
    | .gt => false
    | .eq => trends_row_leb rest a b

/-- The sorted query result (any stable sort realises SQL ORDER BY; we use
insertion sort, which is kernel-computable). -/
def sortTrendRows (sorts : List SortField) (rows : List TrendRow) : List TrendRow :=
  rows.insertionSort (fun a b => trends_row_leb sorts a b = true)

/-- An HTTP-level failure raised by a router. -/
inductive ApiError where
  | badRequest (detail : String)
deriving DecidableEq, Repr

/-- The sort-validation loop of `get_trends` (lines 976–1015): walk the
requested sort fields in order and raise
`HTTPException(400, "Invalid sort field: …")` at the first unknown one. -/
def compile_sorts (valid_sort_fields : List String) :
    List SortField → Except ApiError (List SortField)
  | [] => .ok []
  | s :: rest =>
    if valid_sort_fields.contains s.field then
      (compile_sorts valid_sort_fields rest).map (fun l => s :: l)
    else
      .error (.badRequest ("Invalid sort field: " ++ s.field))

/-- The value returned by `get_trends`: either the bare empty list `[]`
(when the page of rows is empty) or the response envelope. -/
inductive TrendsResponse where
  | empty_list
  | envelope (limit offset count total_count : Nat) (results : List TrendRow)
deriving DecidableEq, Repr

instance exceptDecEq [DecidableEq ε] [DecidableEq α] : DecidableEq (Except ε α) := fun x y =>
  match x, y with
  | .error a, .error b =>
    if h : a = b then .isTrue (by rw [h]) else .isFalse (by simp [h])
  | .ok a, .ok b =>
    if h : a = b then .isTrue (by rw [h]) else .isFalse (by simp [h])
  | .error _, .ok _ => .isFalse (by simp)
  | .ok _, .error _ => .isFalse (by simp)

/-- A router call outcome together with the number of round-trips made to the
data store (`query.count()` and `query.all()` are one each). -/
structure QueryRun (ρ : Type) where
  store_queries : Nat
  outcome : Except ApiError ρ
deriving DecidableEq, Repr

/-- The validated request body of `POST /trends`, restricted to the filter
groups the verified claims mention.  The omitted groups (trend_id, category,
day_of_week, divisional, total, seasons, wins, losses, pushes, total_games)
compile to further independent top-level conjuncts of the same shapes. -/
structure TrendRequest where
  month : Option StrOrList := none
  start_month : Option String := none
  end_month : Option String := none
  spread : Option SpreadArg := none
  win_percentage : Option RatOrList := none
  min_win_percentage : Option ℚ := none
  max_win_percentage : Option ℚ := none
  sort_by : Option (List SortField) :=
    some [⟨"win_percentage", "desc"⟩, ⟨"total_games", "desc"⟩]
  limit : Nat := 5000
  offset : Nat := 0
deriving DecidableEq, Repr

/-- The `filters_list` assembled by `get_trends` for the modelled groups. -/
def trends_filters_list (f : TrendRequest) : List TrendCond :=
  trends_month_filters f.month f.start_month f.end_month
    ++ trends_spread_filters f.spread
    ++ trends_win_percentage_filters f.win_percentage
    ++ trends_win_percentage_range_filters f.min_win_percentage f.max_win_percentage

/-- Endpoint `get_trends` (lines 717–1036): compile the filters, run
`query.order_by(None).count()` (first store query), validate and apply the
sort, paginate, run `query.all()` (second store query), and return either the
bare `[]` or the envelope. -/
def get_trends (store : List TrendRow) (filters : TrendRequest) :
    QueryRun TrendsResponse :=
  let filters_list := trends_filters_list filters
  let matched := store.filter (fun r => filters_list.all (fun c => c.eval r))
  let total_count := matched.length
  let sortsResult : Except ApiError (List SortField) :=
    match filters.sort_by with
    | some l => if !l.isEmpty then compile_sorts trend_valid_sort_fields l else .ok []
    | none => .ok []
  match sortsResult with
  | .error e => ⟨1, .error e⟩
  | .ok sorts =>
    let ordered := if !sorts.isEmpty then sortTrendRows sorts matched else matched
    let paged := if filters.offset ≠ 0 then ordered.drop filters.offset else ordered
    let paged := if filters.limit ≠ 0 then paged.take filters.limit else paged
    if paged.isEmpty then
      ⟨2, .ok .empty_list⟩
    else
      ⟨2, .ok (.envelope filters.limit filters.offset paged.length total_count paged)⟩

/-! ## `app/routers/games.py` — the games filter compiler and executor

The `Game` SQLAlchemy model (`app/models/game.py`) is imported by the router
but is absent from the repository snapshot; the row type below carries the
columns the verified claims touch, and the executor takes the schema's
column-name set (`inspect(Game).mapper.column_attrs`) as a parameter. -/

/-- A row of the `games` table, restricted to the columns the verified claims
touch.  Modelled from the spec: the full `Game` model is external to the
snapshot ("a queryable table of records"); further columns would only add
further independent conjuncts and sort keys. -/
structure GameRow where
  id_string : String
  date : String
  month : Option String
  day_of_week : Option String
  home_team : String
  away_team : String
  home_abbreviation : String
  away_abbreviation : String
deriving DecidableEq, Repr

/-- A compiled SQL condition over `GameRow`, as assembled into `filters_list`
by `get_games` for the modelled filter groups. -/
inductive GameCond where
  | month_eq (v : String)
  | month_in (vs : List String)
  | month_case_between (lo hi : Nat)
  | month_case_ge (lo : Nat)
  | month_case_le (hi : Nat)
  | team_cond (c : PairCond)
  | abbrev_cond (c : PairCond)
deriving DecidableEq, Repr

/-- Evaluation over a game row; `team_cond` reads the
(`home_team`, `away_team`) columns, `abbrev_cond` the
(`home_abbreviation`, `away_abbreviation`) columns. -/
def GameCond.eval (r : GameRow) : GameCond → Bool
  | .month_eq v => r.month == some v
  | .month_in vs => match r.month with
    | some m => vs.contains m
    | none => false
  | .month_case_between lo hi =>
      decide (lo ≤ month_case_filter r.month) && decide (month_case_filter r.month ≤ hi)
  | .month_case_ge lo => decide (lo ≤ month_case_filter r.month)
  | .month_case_le hi => decide (month_case_filter r.month ≤ hi)
  | .team_cond c => c.eval r.home_team r.away_team
  | .abbrev_cond c => c.eval r.home_abbreviation r.away_abbreviation

/-- Lines 1226–1231 of `get_games`: the discrete month filter (no null
sentinel in this router). -/
def games_month_filters (month : Option StrOrList) : List GameCond :=
  match month with
  | none => []
  | some a =>
    if a.truthy then
      match a with
      | .one s => [.month_eq s]
      | .many l => [.month_in l]
    else []

/-- Lines 1251–1260 of `get_games`: the month range filter, appended to
`filters_list` as its own conjunct (no OR with the discrete filter, no
null guard). -/
def games_month_range_filters (start_month end_month : Option String) :
    List GameCond :=
  if optStrTruthy start_month && optStrTruthy end_month then
    [.month_case_between (MONTH_MAPPING (start_month.getD ""))
                         (MONTH_MAPPING (end_month.getD ""))]
  else if optStrTruthy start_month then
    [.month_case_ge (MONTH_MAPPING (start_month.getD ""))]
  else if optStrTruthy end_month then
    [.month_case_le (MONTH_MAPPING (end_month.getD ""))]
  else
    []

/-- Lines 1333–1373 of `get_games`: the team-name matchup conjunct. -/
def games_team_filters (home_team away_team : Option StrOrList) : List GameCond :=
  match resolve_team_matchup (normalize_to_list home_team) (normalize_to_list away_team) with
  | some c => [.team_cond c]
  | none => []

/-- Lines 1376–1416 of `get_games`: the abbreviation matchup conjunct. -/
def games_abbreviation_filters (home_abbreviation away_abbreviation : Option StrOrList) :
    List GameCond :=
  match resolve_abbreviation_matchup (normalize_to_list home_abbreviation)
      (normalize_to_list away_abbreviation) with
  | some c => [.abbrev_cond c]
  | none => []

/-- The games `day_case` (Monday=1 … Sunday=7, NULL=8, else 9). -/
def games_day_case_sort (d : Option String) : Nat :=
  match d with
  | none => 8
  | some s =>
    if s == "Monday" then 1
    else if s == "Tuesday" then 2
    else if s == "Wednesday" then 3
    else if s == "Thursday" then 4
    else if s == "Friday" then 5
    else if s == "Saturday" then 6
    else if s == "Sunday" then 7
    else 9

/-- Per-column ordering of `get_games`' ORDER BY over the modelled columns
(unmodelled columns compare equal; no verified claim depends on their order). -/
def games_compare_field (s : SortField) (a b : GameRow) : Ordering :=
  let o : Ordering :=
    if s.field == "month" then
      compare (month_case_sort a.month) (month_case_sort b.month)
    else if s.field == "day_of_week" then
      compare (games_day_case_sort a.day_of_week) (games_day_case_sort b.day_of_week)
    else if s.field == "id_string" then strCompare a.id_string b.id_string
    else if s.field == "date" then strCompare a.date b.date
    else if s.field == "home_team" then strCompare a.home_team b.home_team
    else if s.field == "away_team" then strCompare a.away_team b.away_team
    else if s.field == "home_abbreviation" then strCompare a.home_abbreviation b.home_abbreviation
    else if s.field == "away_abbreviation" then strCompare a.away_abbreviation b.away_abbreviation
    else .eq
  if s.order == "desc" then o.swap else o

/-- Multi-key ORDER BY for games rows. -/
def games_row_leb (sorts : List SortField) (a b : GameRow) : Bool :=
  match sorts with
  | [] => true
  | s :: rest =>
    match games_compare_field s a b with
    | .lt => true
    | .gt => false
    | .eq => games_row_leb rest a b

/-- The sorted games query result. -/
def sortGameRows (sorts : List SortField) (rows : List GameRow) : List GameRow :=
  rows.insertionSort (fun a b => games_row_leb sorts a b = true)

/-- The value returned by `get_games`: the bare empty list or the envelope. -/
inductive GamesResponse where
  | empty_list
  | envelope (limit offset count total_count : Nat) (results : List GameRow)
deriving DecidableEq, Repr

/-- The validated request body of `POST /games`, restricted to the filter
groups the verified claims mention; the omitted groups compile to further
independent top-level conjuncts. -/
structure GameRequest where
  month : Option StrOrList := none
  start_month : Option String := none
  end_month : Option String := none
  home_team : Option StrOrList := none
  away_team : Option StrOrList := none
  home_abbreviation : Option StrOrList := none
  away_abbreviation : Option StrOrList := none
  sort_by : Option (List SortField) :=
    some [⟨"date", "asc"⟩, ⟨"id_string", "asc"⟩]
  limit : Nat := 100
  offset : Nat := 0
deriving DecidableEq, Repr

/-- The `filters_list` assembled by `get_games` for the modelled groups, in
source order: discrete month, month range, team matchup, abbreviation
matchup. -/
def games_filters_list (f : GameRequest) : List GameCond :=
  games_month_filters f.month
    ++ games_month_range_filters f.start_month f.end_month
    ++ games_team_filters f.home_team f.away_team
    ++ games_abbreviation_filters f.home_abbreviation f.away_abbreviation

/-- Endpoint `get_games` (lines 1201–1741): same executor shape as `get_trends` —
count query first, then sort validation, ORDER BY, pagination, page query,
and the bare `[]` for an empty page.  `valid_sort_fields` stands for
`inspect(Game).mapper.column_attrs` of the absent `Game` model. -/
def get_games (valid_sort_fields : List String) (store : List GameRow)
    (filters : GameRequest) : QueryRun GamesResponse :=
  let filters_list := games_filters_list filters
  let matched := store.filter (fun r => filters_list.all (fun c => c.eval r))
  let total_count := matched.length
  let sortsResult : Except ApiError (List SortField) :=
    match filters.sort_by with
    | some l => if !l.isEmpty then compile_sorts valid_sort_fields l else .ok []
    | none => .ok []
  match sortsResult with
  | .error e => ⟨1, .error e⟩
  | .ok sorts =>
    let ordered := if !sorts.isEmpty then sortGameRows sorts matched else matched
    let paged := if filters.offset ≠ 0 then ordered.drop filters.offset else ordered
    let paged := if filters.limit ≠ 0 then paged.take filters.limit else paged
    if paged.isEmpty then
      ⟨2, .ok .empty_list⟩
    else
      ⟨2, .ok (.envelope filters.limit filters.offset paged.length total_count paged)⟩

/-! ## `app/cache.py::generate_cache_key` — the content fingerprint

`generate_cache_key(data)` is `sha256(json.dumps(data, sort_keys=True,
default=str))`.  We embed the JSON-representable Python values that the
normalized filter documents consist of, and the `json.dumps(…, sort_keys=True)`
serialization with its default separators `", "` and `": "`.  SHA-256 is a
fixed function of the serialized string, injective on the inputs at hand
(collision-freeness of the digest), so key equality is modelled as equality
of the canonical serialization. -/

/-- A JSON-representable Python value (the payloads passed to
`generate_cache_key`: validated filter documents). -/
inductive PyJson where
  | null
  | bool (b : Bool)
  | int (n : Int)
  | str (s : String)
  | arr (l : List PyJson)
  | obj (fields : List (String × PyJson))

/-- Decimal digits of a natural number, most significant first; the `fuel`
argument makes the recursion structural (any `fuel > n` is exact). -/
def natCharsAux : Nat → Nat → List Char
  | 0, _ => []
  | fuel + 1, n =>
    if n < 10 then [Nat.digitChar n]
    else natCharsAux fuel (n / 10) ++ [Nat.digitChar (n % 10)]

/-- Decimal representation of a natural number (what `repr`/`json.dumps`
print for a non-negative int). -/
def natChars (n : Nat) : List Char :=
  natCharsAux (n + 1) n

/-- Decimal representation of an integer. -/
def intChars : Int → List Char
  | .ofNat m => natChars m
  | .negSucc m => '-' :: natChars (m + 1)

/-- A character JSON emits verbatim inside a quoted string (no `"`, no `\`,
no control characters).  Every enum label, field name and formatted value in
the filter documents satisfies this. -/
def safeChar (c : Char) : Bool :=
  c.toNat ≥ 32 && c.toNat ≠ 34 && c.toNat ≠ 92

/-- A string JSON emits verbatim between quotes. -/
def safeString (s : String) : Bool :=
  s.data.all safeChar

/-- Field comparison by key, in code-point order — the order
`json.dumps(…, sort_keys=True)` sorts dict keys by. -/
def fieldLe (f g : String × PyJson) : Prop :=
  charsCompare f.1.data g.1.data ≠ .gt

instance : DecidableRel fieldLe := fun f g => by
  unfold fieldLe; infer_instance

/-- Dict fields in ascending key order (`sort_keys=True`). -/
def sortFields (fs : List (String × PyJson)) : List (String × PyJson) :=
  fs.insertionSort fieldLe

mutual
/-- JSON serialization with the default item/key separators `", "` and
`": "`, emitting object fields in the order given; `json.dumps` with
`sort_keys=True` is this serialization applied to the recursively key-sorted
document (`canon` below). -/
def ser : PyJson → List Char
  | .null => "null".data
  | .bool true => "true".data
  | .bool false => "false".data
  | .int n => intChars n
  | .str s => '"' :: s.data ++ ['"']
  | .arr l => '[' :: serArr l ++ [']']
  | .obj fs => Char.ofNat 123 :: serObj fs ++ [Char.ofNat 125]

/-- Array elements joined by `", "`. -/
def serArr : List PyJson → List Char
  | [] => []
  | [x] => ser x
  | x :: y :: rest => ser x ++ ',' :: ' ' :: serArr (y :: rest)

/-- Object fields joined by `", "`, each rendered as `"key": value`. -/
def serObj : List (String × PyJson) → List Char
  | [] => []
  | [(k, v)] => '"' :: k.data ++ '"' :: ':' :: ' ' :: ser v
  | (k, v) :: g :: rest =>
      ('"' :: k.data ++ '"' :: ':' :: ' ' :: ser v) ++ ',' :: ' ' :: serObj (g :: rest)
end

mutual
/-- The canonical form of a document: every object's fields in ascending key
order, recursively.  Two documents "differ only in field insertion order"
exactly when their canonical forms coincide. -/
def canon : PyJson → PyJson
  | .null => .null
  | .bool b => .bool b
  | .int n => .int n
  | .str s => .str s
  | .arr l => .arr (canonList l)
  | .obj fs => .obj (sortFields (canonFields fs))

def canonList : List PyJson → List PyJson
  | [] => []
  | x :: rest => canon x :: canonList rest

def canonFields : List (String × PyJson) → List (String × PyJson)
  | [] => []
  | (k, v) :: rest => (k, canon v) :: canonFields rest
end

/-- Key generation `generate_cache_key(data)` = `sha256(json.dumps(data, sort_keys=True))`:
serialize with every object's keys in sorted order.  The SHA-256 digest the
source takes of this string is one-to-one on these inputs, so key equality
coincides with equality of this string. -/
def generate_cache_key (data : PyJson) : String :=
  ⟨ser (canon data)⟩

/-- Pairwise-distinct field keys (Python dicts cannot repeat keys). -/
def keysNodupB : List (String × PyJson) → Bool
  | [] => true
  | f :: rest => rest.all (fun g => decide (f.1 ≠ g.1)) && keysNodupB rest

mutual
/-- Well-formedness of a document handed to `generate_cache_key`: strings and
field keys need no JSON escaping, and object keys are distinct. -/
def wfB : PyJson → Bool
  | .null => true
  | .bool _ => true
  | .int _ => true
  | .str s => safeString s
  | .arr l => wfArrB l
  | .obj fs => wfFieldsB fs && keysNodupB fs && fs.all (fun f => safeString f.1)

def wfArrB : List PyJson → Bool
  | [] => true
  | x :: rest => wfB x && wfArrB rest

def wfFieldsB : List (String × PyJson) → Bool
  | [] => true
  | (_, v) :: rest => wfB v && wfFieldsB rest
end

mutual
/-- Recursive escaping-freeness: every string value and field key in the
document is emitted verbatim by the serializer. -/
def safeB : PyJson → Bool
  | .null => true
  | .bool _ => true
  | .int _ => true
  | .str s => safeString s
  | .arr l => safeArrB l
  | .obj fs => safeFieldsB fs

def safeArrB : List PyJson → Bool
  | [] => true
  | x :: rest => safeB x && safeArrB rest

def safeFieldsB : List (String × PyJson) → Bool
  | [] => true
  | (k, v) :: rest => safeString k && safeB v && safeFieldsB rest
end

/-! ### Unique-parsing lemmas for the serializer -/

/-- Decimal digit character test. -/
def isDigitCh (c : Char) : Bool :=
  48 ≤ c.toNat && c.toNat ≤ 57

/-- A tail that cannot extend a preceding numeric token: empty, or starting
with a non-digit.  Every continuation the serializer produces after a value
(`", "`, `"]"`, `"}"` or the end of output) is of this form. -/
def goodTail : List Char → Bool
  | [] => true
  | c :: _ => !isDigitCh c

/-- The numeric value of a digit string (most significant first). -/
def natVal (ds : List Char) : Nat :=
  ds.foldl (fun a c => 10 * a + (c.toNat - 48)) 0

theorem digitChar_toNat : ∀ n, n < 10 → (Nat.digitChar n).toNat = 48 + n := by
  decide

theorem natVal_append_digit (ds : List Char) (c : Char) :
    natVal (ds ++ [c]) = 10 * natVal ds + (c.toNat - 48) := by
  simp [natVal, List.foldl_append]

theorem natCharsAux_spec : ∀ fuel n, n < fuel →
    natCharsAux fuel n ≠ [] ∧ (∀ c ∈ natCharsAux fuel n, isDigitCh c = true) ∧
      natVal (natCharsAux fuel n) = n := by
  intro fuel
  induction fuel with
  | zero => intro n hn; omega
  | succ fuel ih =>
    intro n hn
    by_cases h10 : n < 10
    · refine ⟨by simp [natCharsAux, h10], ?_, ?_⟩
      · intro c hc
        simp [natCharsAux, h10] at hc
        subst hc
        simp only [isDigitCh, digitChar_toNat n h10]
        simp
        omega
      · simp [natCharsAux, h10, natVal, digitChar_toNat n h10]
    · have hdiv : n / 10 < fuel := by
        have h1 : n / 10 < n := Nat.div_lt_self (by omega) (by omega)
        omega
      obtain ⟨hne, hdig, hval⟩ := ih (n / 10) hdiv
      have hmod : n % 10 < 10 := Nat.mod_lt _ (by omega)
      refine ⟨by simp [natCharsAux, h10], ?_, ?_⟩
      · intro c hc
        simp [natCharsAux, h10] at hc
        rcases hc with hc | hc
        · exact hdig c hc
        · subst hc
          simp only [isDigitCh, digitChar_toNat _ hmod]
          simp
          omega
      · simp only [natCharsAux, h10, if_false]
        rw [natVal_append_digit, hval, digitChar_toNat _ hmod]
        omega

theorem natChars_ne_nil (n : Nat) : natChars n ≠ [] :=
  (natCharsAux_spec (n + 1) n (by omega)).1

theorem natChars_digits (n : Nat) : ∀ c ∈ natChars n, isDigitCh c = true :=
  (natCharsAux_spec (n + 1) n (by omega)).2.1

theorem natVal_natChars (n : Nat) : natVal (natChars n) = n :=
  (natCharsAux_spec (n + 1) n (by omega)).2.2

theorem natChars_inj {m n : Nat} (h : natChars m = natChars n) : m = n := by
  have := natVal_natChars m
  rw [h, natVal_natChars] at this
  omega

/-- A maximal digit run followed by a non-digit is uniquely delimited. -/
theorem digitRun_inj : ∀ (ds1 ds2 r1 r2 : List Char),
    (∀ c ∈ ds1, isDigitCh c = true) → (∀ c ∈ ds2, isDigitCh c = true) →
    goodTail r1 = true → goodTail r2 = true →
    ds1 ++ r1 = ds2 ++ r2 → ds1 = ds2 ∧ r1 = r2 := by
  intro ds1
  induction ds1 with
  | nil =>
    intro ds2 r1 r2 _ hd2 hr1 _ heq
    cases ds2 with
    | nil => exact ⟨rfl, heq⟩
    | cons c ds2' =>
      exfalso
      simp only [List.nil_append, List.cons_append] at heq
      have hc : isDigitCh c = true := hd2 c (by simp)
      rw [heq] at hr1
      simp [goodTail, hc] at hr1
  | cons c ds1' ih =>
    intro ds2 r1 r2 hd1 hd2 hr1 hr2 heq
    cases ds2 with
    | nil =>
      exfalso
      simp only [List.cons_append, List.nil_append] at heq
      have hc : isDigitCh c = true := hd1 c (by simp)
      rw [← heq] at hr2
      simp [goodTail, hc] at hr2
    | cons d ds2' =>
      simp only [List.cons_append, List.cons.injEq] at heq
      obtain ⟨hcd, heq'⟩ := heq
      subst hcd
      obtain ⟨h1, h2⟩ := ih ds2' r1 r2 (fun x hx => hd1 x (by simp [hx]))
        (fun x hx => hd2 x (by simp [hx])) hr1 hr2 heq'
      exact ⟨by rw [h1], h2⟩

theorem intChars_inj : ∀ (n1 n2 : Int) (r1 r2 : List Char),
    goodTail r1 = true → goodTail r2 = true →
    intChars n1 ++ r1 = intChars n2 ++ r2 → n1 = n2 ∧ r1 = r2 := by
  intro n1 n2 r1 r2 hr1 hr2 heq
  cases n1 with
  | ofNat m1 =>
    cases n2 with
    | ofNat m2 =>
      obtain ⟨h1, h2⟩ := digitRun_inj _ _ _ _ (natChars_digits m1) (natChars_digits m2)
        hr1 hr2 heq
      exact ⟨by rw [natChars_inj h1], h2⟩
    | negSucc m2 =>
      exfalso
      obtain ⟨c, t, hct⟩ := List.exists_cons_of_ne_nil (natChars_ne_nil m1)
      have hc : isDigitCh c = true := natChars_digits m1 c (by rw [hct]; simp)
      simp only [intChars, hct, List.cons_append] at heq
      have : c = '-' := by exact (List.cons.injEq _ _ _ _ ▸ heq).1
      rw [this] at hc
      simp [isDigitCh] at hc
  | negSucc m1 =>
    cases n2 with
    | ofNat m2 =>
      exfalso
      obtain ⟨c, t, hct⟩ := List.exists_cons_of_ne_nil (natChars_ne_nil m2)
      have hc : isDigitCh c = true := natChars_digits m2 c (by rw [hct]; simp)
      simp only [intChars, hct, List.cons_append] at heq
      have : '-' = c := by exact (List.cons.injEq _ _ _ _ ▸ heq).1
      rw [← this] at hc
      simp [isDigitCh] at hc
    | negSucc m2 =>
      simp only [intChars, List.cons_append, List.cons.injEq, true_and] at heq
      obtain ⟨h1, h2⟩ := digitRun_inj _ _ _ _ (natChars_digits (m1 + 1))
        (natChars_digits (m2 + 1)) hr1 hr2 heq
      have hm := natChars_inj h1
      exact ⟨by rw [show m1 = m2 by omega], h2⟩

/-- A quote-free string followed by a closing quote is uniquely delimited. -/
theorem quoted_inj : ∀ (s1 s2 t1 t2 : List Char),
    (∀ c ∈ s1, safeChar c = true) → (∀ c ∈ s2, safeChar c = true) →
    s1 ++ '"' :: t1 = s2 ++ '"' :: t2 → s1 = s2 ∧ t1 = t2 := by
  intro s1
  induction s1 with
  | nil =>
    intro s2 t1 t2 _ hs2 heq
    cases s2 with
    | nil => simpa using heq
    | cons c s2' =>
      exfalso
      simp only [List.nil_append, List.cons_append, List.cons.injEq] at heq
      have hc : safeChar c = true := hs2 c (by simp)
      rw [← heq.1] at hc
      simp [safeChar] at hc
  | cons c s1' ih =>
    intro s2 t1 t2 hs1 hs2 heq
    cases s2 with
    | nil =>
      exfalso
      simp only [List.cons_append, List.nil_append, List.cons.injEq] at heq
      have hc : safeChar c = true := hs1 c (by simp)
      rw [heq.1] at hc
      simp [safeChar] at hc
    | cons d s2' =>
      simp only [List.cons_append, List.cons.injEq] at heq
      obtain ⟨hcd, heq'⟩ := heq
      subst hcd
      obtain ⟨h1, h2⟩ := ih s2' t1 t2 (fun x hx => hs1 x (by simp [hx]))
        (fun x hx => hs2 x (by simp [hx])) heq'
      exact ⟨by rw [h1], h2⟩

/-- The character class a serialized value starts with, by constructor. -/
def leadOk : PyJson → Char → Prop
  | .null, c => c.toNat = 110
  | .bool true, c => c.toNat = 116
  | .bool false, c => c.toNat = 102
  | .int _, c => (48 ≤ c.toNat ∧ c.toNat ≤ 57) ∨ c.toNat = 45
  | .str _, c => c.toNat = 34
  | .arr _, c => c.toNat = 91
  | .obj _, c => c.toNat = 123

theorem ser_lead : ∀ a : PyJson, ∃ c t, ser a = c :: t ∧ leadOk a c := by
  intro a
  cases a with
  | null => exact ⟨'n', "ull".data, rfl, by simp [leadOk]⟩
  | bool b =>
    cases b with
    | true => exact ⟨'t', "rue".data, rfl, by simp [leadOk]⟩
    | false => exact ⟨'f', "alse".data, rfl, by simp [leadOk]⟩
  | int n =>
    cases n with
    | ofNat m =>
      obtain ⟨c, t, hct⟩ := List.exists_cons_of_ne_nil (natChars_ne_nil m)
      refine ⟨c, t, by simp [ser, intChars, hct], ?_⟩
      have hc := natChars_digits m c (by rw [hct]; simp)
      simp [isDigitCh] at hc
      exact Or.inl hc
    | negSucc m =>
      exact ⟨'-', natChars (m + 1), by simp [ser, intChars], by simp [leadOk]⟩
  | str s => exact ⟨'"', s.data ++ ['"'], rfl, by simp [leadOk]⟩
  | arr l => exact ⟨'[', serArr l ++ [']'], rfl, by simp [leadOk]⟩
  | obj fs =>
    exact ⟨Char.ofNat 123, serObj fs ++ [Char.ofNat 125], rfl, by simp [leadOk]⟩

/-- No serialized value starts with one of the serializer's punctuation
characters (`,`, `]`, `}`, `:`, space). -/
theorem leadOk_not_punct {a : PyJson} {c : Char} (h : leadOk a c) :
    c.toNat ≠ 44 ∧ c.toNat ≠ 93 ∧ c.toNat ≠ 125 ∧ c.toNat ≠ 58 ∧ c.toNat ≠ 32 := by
  cases a with
  | null => simp [leadOk] at h; omega
  | bool b => cases b <;> simp [leadOk] at h <;> omega
  | int n => simp [leadOk] at h; omega
  | str s => simp [leadOk] at h; omega
  | arr l => simp [leadOk] at h; omega
  | obj fs => simp [leadOk] at h; omega

theorem char_head_of_append {c1 c2 : Char} {t1 t2 r1 r2 : List Char}
    (h : (c1 :: t1) ++ r1 = (c2 :: t2) ++ r2) : c1 = c2 := by
  simpa using congrArg List.head? h

/-- The serializer is prefix-determined on safe documents (joint statement
for values, array bodies and object bodies, by induction on a size bound):
equal serializations followed by non-digit-leading tails come from equal
documents and equal tails. -/
theorem serInjAux : ∀ n : Nat,
    (∀ (a b : PyJson) (r1 r2 : List Char), sizeOf a ≤ n →
      safeB a = true → safeB b = true →
      goodTail r1 = true → goodTail r2 = true →
      ser a ++ r1 = ser b ++ r2 → a = b ∧ r1 = r2) ∧
    (∀ (l1 l2 : List PyJson) (r1 r2 : List Char), sizeOf l1 ≤ n →
      safeArrB l1 = true → safeArrB l2 = true →
      serArr l1 ++ ']' :: r1 = serArr l2 ++ ']' :: r2 → l1 = l2 ∧ r1 = r2) ∧
    (∀ (fs1 fs2 : List (String × PyJson)) (r1 r2 : List Char), sizeOf fs1 ≤ n →
      safeFieldsB fs1 = true → safeFieldsB fs2 = true →
      serObj fs1 ++ Char.ofNat 125 :: r1 = serObj fs2 ++ Char.ofNat 125 :: r2 →
      fs1 = fs2 ∧ r1 = r2) := by
  intro n
  induction n with
  | zero =>
    refine ⟨?_, ?_, ?_⟩
    · intro a b r1 r2 hsz _ _ _ _ _
      exfalso; cases a <;> simp at hsz
    · intro l1 l2 r1 r2 hsz _ _ _
      exfalso; cases l1 <;> simp at hsz
    · intro fs1 fs2 r1 r2 hsz _ _ _
      exfalso; cases fs1 <;> simp at hsz
  | succ n IH =>
    obtain ⟨IH1, IH2, IH3⟩ := IH
    refine ⟨?_, ?_, ?_⟩
    · -- values
      intro a b r1 r2 hsz ha hb hr1 hr2 heq
      obtain ⟨ca, ta, ea, hla⟩ := ser_lead a
      obtain ⟨cb, tb, eb, hlb⟩ := ser_lead b
      have hcc : ca = cb := by
        have h := heq
        rw [ea, eb] at h
        exact char_head_of_append h
      subst hcc
      clear ea eb
      rcases a with _ | b1 | n1 | s1 | al | fs1 <;>
        rcases b with _ | b2 | n2 | s2 | bl | fs2 <;>
        (try cases b1) <;> (try cases b2) <;>
        (try (exfalso; simp only [leadOk] at hla hlb; omega))
      · -- null / null
        exact ⟨rfl, (List.append_inj heq rfl).2⟩
      · -- bool false / bool false
        exact ⟨rfl, (List.append_inj heq rfl).2⟩
      · -- bool true / bool true
        exact ⟨rfl, (List.append_inj heq rfl).2⟩
      · -- int / int
        obtain ⟨h1, h2⟩ := intChars_inj n1 n2 r1 r2 hr1 hr2 heq
        exact ⟨by rw [h1], h2⟩
      · -- str / str
        simp only [ser, List.cons_append, List.append_assoc, List.singleton_append,
          List.cons.injEq, true_and] at heq
        have hs1 : ∀ c ∈ s1.data, safeChar c = true := by
          simp only [safeB, safeString] at ha
          exact List.all_eq_true.mp ha
        have hs2 : ∀ c ∈ s2.data, safeChar c = true := by
          simp only [safeB, safeString] at hb
          exact List.all_eq_true.mp hb
        obtain ⟨h1, h2⟩ := quoted_inj _ _ _ _ hs1 hs2 heq
        refine ⟨?_, h2⟩
        cases s1; cases s2
        exact congrArg (fun l => PyJson.str ⟨l⟩) h1
      · -- arr / arr
        simp only [ser, List.cons_append, List.append_assoc, List.singleton_append,
          List.cons.injEq, true_and] at heq
        simp only [safeB] at ha hb
        have hsz' : sizeOf al ≤ n := by
          simp only [PyJson.arr.sizeOf_spec] at hsz; omega
        obtain ⟨h1, h2⟩ := IH2 al bl r1 r2 hsz' ha hb heq
        exact ⟨by rw [h1], h2⟩
      · -- obj / obj
        simp only [ser, List.cons_append, List.append_assoc, List.singleton_append,
          List.cons.injEq, true_and] at heq
        simp only [safeB] at ha hb
        have hsz' : sizeOf fs1 ≤ n := by
          simp only [PyJson.obj.sizeOf_spec] at hsz; omega
        obtain ⟨h1, h2⟩ := IH3 fs1 fs2 r1 r2 hsz' ha hb heq
        exact ⟨by rw [h1], h2⟩
    · -- array bodies
      intro l1 l2 r1 r2 hsz h1 h2 heq
      rcases l1 with _ | ⟨x, xs⟩
      · rcases l2 with _ | ⟨y, ys⟩
        · exact ⟨rfl, by simpa [serArr] using heq⟩
        · exfalso
          obtain ⟨cy, ty, ey, hly⟩ := ser_lead y
          rcases ys with _ | ⟨y2, ys'⟩ <;>
            · simp only [serArr, List.nil_append, ey, List.cons_append,
                List.append_assoc] at heq
              have := @char_head_of_append _ _ [] _ _ _ (by simpa using heq)
              obtain ⟨_, h93, _⟩ := leadOk_not_punct hly
              rw [← this] at h93
              simp at h93
      · rcases l2 with _ | ⟨y, ys⟩
        · exfalso
          obtain ⟨cx, tx, ex, hlx⟩ := ser_lead x
          rcases xs with _ | ⟨x2, xs'⟩ <;>
            · simp only [serArr, List.nil_append, ex, List.cons_append,
                List.append_assoc] at heq
              have := @char_head_of_append _ _ _ [] _ _ (by simpa using heq)
              obtain ⟨_, h93, _⟩ := leadOk_not_punct hlx
              rw [this] at h93
              simp at h93
        · have hszx : sizeOf x ≤ n := by
            simp only [List.cons.sizeOf_spec] at hsz; omega
          simp only [safeArrB, Bool.and_eq_true] at h1 h2
          rcases xs with _ | ⟨x2, xs'⟩ <;> rcases ys with _ | ⟨y2, ys'⟩
          · -- [x] / [y]
            simp only [serArr] at heq
            obtain ⟨hxy, ht⟩ := IH1 x y (']' :: r1) (']' :: r2) hszx h1.1 h2.1 rfl rfl heq
            exact ⟨by rw [hxy], by simpa using ht⟩
          · -- [x] / y :: y2 :: ys'
            exfalso
            simp only [serArr, List.append_assoc, List.cons_append] at heq
            obtain ⟨_, ht⟩ := IH1 x y (']' :: r1)
              (',' :: ' ' :: (serArr (y2 :: ys') ++ ']' :: r2)) hszx h1.1 h2.1 rfl rfl heq
            simp at ht
          · -- x :: x2 :: xs' / [y]
            exfalso
            simp only [serArr, List.append_assoc, List.cons_append] at heq
            obtain ⟨_, ht⟩ := IH1 x y (',' :: ' ' :: (serArr (x2 :: xs') ++ ']' :: r1))
              (']' :: r2) hszx h1.1 h2.1 rfl rfl heq
            simp at ht
          · -- cons-cons
            simp only [serArr, List.append_assoc, List.cons_append] at heq
            obtain ⟨hxy, ht⟩ := IH1 x y
              (',' :: ' ' :: (serArr (x2 :: xs') ++ ']' :: r1))
              (',' :: ' ' :: (serArr (y2 :: ys') ++ ']' :: r2)) hszx h1.1 h2.1 rfl rfl heq
            simp only [List.cons.injEq, true_and] at ht
            have hszxs : sizeOf (x2 :: xs') ≤ n := by
              simp only [List.cons.sizeOf_spec] at hsz ⊢; omega
            obtain ⟨hrest, hr⟩ := IH2 (x2 :: xs') (y2 :: ys') r1 r2 hszxs h1.2 h2.2 ht
            exact ⟨by rw [hxy, hrest], hr⟩
    · -- object bodies
      intro fs1 fs2 r1 r2 hsz h1 h2 heq
      rcases fs1 with _ | ⟨⟨k1, v1⟩, gs1⟩
      · rcases fs2 with _ | ⟨⟨k2, v2⟩, gs2⟩
        · exact ⟨rfl, by simpa [serObj] using heq⟩
        · exfalso
          rcases gs2 with _ | ⟨g2, gs2'⟩ <;>
            · simp only [serObj, List.nil_append, List.cons_append] at heq
              injection heq with hc _
              exact absurd hc (by decide)
      · rcases fs2 with _ | ⟨⟨k2, v2⟩, gs2⟩
        · exfalso
          rcases gs1 with _ | ⟨g1, gs1'⟩ <;>
            · simp only [serObj, List.nil_append, List.cons_append] at heq
              injection heq with hc _
              exact absurd hc (by decide)
        · have hszv : sizeOf v1 ≤ n := by
            simp only [List.cons.sizeOf_spec, Prod.mk.sizeOf_spec] at hsz; omega
          simp only [safeFieldsB, safeString, Bool.and_eq_true] at h1 h2
          rcases gs1 with _ | ⟨g1, gs1'⟩ <;> rcases gs2 with _ | ⟨g2, gs2'⟩
          · -- singletons
            simp only [serObj, List.cons_append, List.append_assoc,
              List.cons.injEq, true_and] at heq
            obtain ⟨hk, hrest⟩ := quoted_inj _ _ _ _
              (List.all_eq_true.mp h1.1.1) (List.all_eq_true.mp h2.1.1) heq
            simp only [List.cons.injEq, true_and] at hrest
            obtain ⟨hv, hr⟩ := IH1 v1 v2 (Char.ofNat 125 :: r1) (Char.ofNat 125 :: r2)
              hszv h1.1.2 h2.1.2 rfl rfl hrest
            have hks : k1 = k2 := by
              cases k1; cases k2; exact congrArg String.mk hk
            exact ⟨by rw [hks, hv], by simpa using hr⟩
          · -- singleton / cons-cons
            exfalso
            simp only [serObj, List.cons_append, List.append_assoc,
              List.cons.injEq, true_and] at heq
            obtain ⟨hk, hrest⟩ := quoted_inj _ _ _ _
              (List.all_eq_true.mp h1.1.1) (List.all_eq_true.mp h2.1.1) heq
            simp only [List.cons.injEq, true_and] at hrest
            obtain ⟨_, hr⟩ := IH1 v1 v2 (Char.ofNat 125 :: r1)
              (',' :: ' ' :: (serObj (g2 :: gs2') ++ Char.ofNat 125 :: r2))
              hszv h1.1.2 h2.1.2 rfl rfl hrest
            injection hr with hc _
            exact absurd hc (by decide)
          · -- cons-cons / singleton
            exfalso
            simp only [serObj, List.cons_append, List.append_assoc,
              List.cons.injEq, true_and] at heq
            obtain ⟨hk, hrest⟩ := quoted_inj _ _ _ _
              (List.all_eq_true.mp h1.1.1) (List.all_eq_true.mp h2.1.1) heq
            simp only [List.cons.injEq, true_and] at hrest
            obtain ⟨_, hr⟩ := IH1 v1 v2
              (',' :: ' ' :: (serObj (g1 :: gs1') ++ Char.ofNat 125 :: r1))
              (Char.ofNat 125 :: r2) hszv h1.1.2 h2.1.2 rfl rfl hrest
            injection hr with hc _
            exact absurd hc (by decide)
          · -- cons-cons / cons-cons
            simp only [serObj, List.cons_append, List.append_assoc,
              List.cons.injEq, true_and] at heq
            obtain ⟨hk, hrest⟩ := quoted_inj _ _ _ _
              (List.all_eq_true.mp h1.1.1) (List.all_eq_true.mp h2.1.1) heq
            simp only [List.cons.injEq, true_and] at hrest
            obtain ⟨hv, hr⟩ := IH1 v1 v2
              (',' :: ' ' :: (serObj (g1 :: gs1') ++ Char.ofNat 125 :: r1))
              (',' :: ' ' :: (serObj (g2 :: gs2') ++ Char.ofNat 125 :: r2))
              hszv h1.1.2 h2.1.2 rfl rfl hrest
            simp only [List.cons.injEq, true_and] at hr
            have hszgs : sizeOf (g1 :: gs1') ≤ n := by
              simp only [List.cons.sizeOf_spec, Prod.mk.sizeOf_spec] at hsz ⊢; omega
            obtain ⟨hrest2, hr2⟩ := IH3 (g1 :: gs1') (g2 :: gs2') r1 r2 hszgs h1.2 h2.2 hr
            have hks : k1 = k2 := by
              cases k1; cases k2; exact congrArg String.mk hk
            exact ⟨by rw [hks, hv, hrest2], hr2⟩

/-- Membership form of `safeFieldsB`. -/
theorem safeFieldsB_iff (fs : List (String × PyJson)) :
    safeFieldsB fs = true ↔ ∀ f ∈ fs, safeString f.1 = true ∧ safeB f.2 = true := by
  induction fs with
  | nil => simp [safeFieldsB]
  | cons f rest ih =>
    obtain ⟨k, v⟩ := f
    simp [safeFieldsB, Bool.and_eq_true, ih, and_assoc]

/-- Predicate `safeFieldsB` only depends on the multiset of fields. -/
theorem safeFieldsB_perm {fs gs : List (String × PyJson)} (hp : fs.Perm gs)
    (h : safeFieldsB fs = true) : safeFieldsB gs = true := by
  rw [safeFieldsB_iff] at h ⊢
  exact fun f hf => h f (hp.symm.subset hf)

/-- Canonicalization preserves recursive escaping-freeness of well-formed documents
(joint statement, by induction on a size bound). -/
theorem canonSafeAux : ∀ n : Nat,
    (∀ d : PyJson, sizeOf d ≤ n → wfB d = true → safeB (canon d) = true) ∧
    (∀ l : List PyJson, sizeOf l ≤ n → wfArrB l = true →
      safeArrB (canonList l) = true) ∧
    (∀ fs : List (String × PyJson), sizeOf fs ≤ n → wfFieldsB fs = true →
      (fs.all fun f => safeString f.1) = true → safeFieldsB (canonFields fs) = true) := by
  intro n
  induction n with
  | zero =>
    refine ⟨?_, ?_, ?_⟩
    · intro d hsz _
      exfalso; cases d <;> simp at hsz
    · intro l hsz _
      exfalso; cases l <;> simp at hsz
    · intro fs hsz _ _
      exfalso; cases fs <;> simp at hsz
  | succ n IH =>
    obtain ⟨IH1, IH2, IH3⟩ := IH
    refine ⟨?_, ?_, ?_⟩
    · intro d hsz hwf
      rcases d with _ | b | m | str | l | fs
      · simp [canon, safeB]
      · simp [canon, safeB]
      · simp [canon, safeB]
      · simpa [canon, safeB, wfB] using hwf
      · simp only [wfB] at hwf
        have hsz' : sizeOf l ≤ n := by
          simp only [PyJson.arr.sizeOf_spec] at hsz; omega
        simpa [canon, safeB] using IH2 l hsz' hwf
      · simp only [wfB, Bool.and_eq_true] at hwf
        have hsz' : sizeOf fs ≤ n := by
          simp only [PyJson.obj.sizeOf_spec] at hsz; omega
        have hc : safeFieldsB (canonFields fs) = true :=
          IH3 fs hsz' hwf.1.1 hwf.2
        simp only [canon, safeB]
        exact safeFieldsB_perm (List.perm_insertionSort fieldLe _).symm hc
    · intro l hsz hwf
      rcases l with _ | ⟨x, rest⟩
      · simp [canonList, safeArrB]
      · simp only [wfArrB, Bool.and_eq_true] at hwf
        have hszx : sizeOf x ≤ n := by
          simp only [List.cons.sizeOf_spec] at hsz; omega
        have hszr : sizeOf rest ≤ n := by
          simp only [List.cons.sizeOf_spec] at hsz; omega
        simp only [canonList, safeArrB, Bool.and_eq_true]
        exact ⟨IH1 x hszx hwf.1, IH2 rest hszr hwf.2⟩
    · intro fs hsz hwf hkeys
      rcases fs with _ | ⟨⟨k, v⟩, rest⟩
      · simp [canonFields, safeFieldsB]
      · simp only [wfFieldsB, Bool.and_eq_true] at hwf
        simp only [List.all_cons, Bool.and_eq_true] at hkeys
        have hszv : sizeOf v ≤ n := by
          simp only [List.cons.sizeOf_spec, Prod.mk.sizeOf_spec] at hsz; omega
        have hszr : sizeOf rest ≤ n := by
          simp only [List.cons.sizeOf_spec, Prod.mk.sizeOf_spec] at hsz; omega
        simp only [canonFields, safeFieldsB, Bool.and_eq_true]
        exact ⟨⟨hkeys.1, IH1 v hszv hwf.1⟩, IH3 rest hszr hwf.2 hkeys.2⟩

/-- Canonicalization of a well-formed document is safe. -/
theorem canon_safe (d : PyJson) (h : wfB d = true) : safeB (canon d) = true :=
  (canonSafeAux (sizeOf d)).1 d (le_refl _) h

/-- The serializer is injective on safe documents. -/
theorem ser_inj (a b : PyJson) (ha : safeB a = true) (hb : safeB b = true)
    (heq : ser a = ser b) : a = b := by
  have h := (serInjAux (sizeOf a)).1 a b [] [] (le_refl _) ha hb rfl rfl (by simpa using heq)
  exact h.1

end NflTrendsApi

namespace NflTrendsApi

/-! ## Helper lemmas for the claim theorems -/

theorem pySetLen1_of_length_one {xs : List String} (h : xs.length = 1) :
    pySetLen1 xs = true := by
  match xs, h with
  | [x], _ => simp [pySetLen1]

theorem trends_month_conditions_ne_nil (m : StrOrList) (hm : m.truthy = true) :
    trends_month_conditions (some m) ≠ [] := by
  cases m with
  | one s =>
    simp only [trends_month_conditions, hm, if_true]
    by_cases h : (s == "None") = true <;> simp [h]
  | many l =>
    simp only [trends_month_conditions, hm, if_true]
    by_cases hv : (l.filter (fun v => v != "None")).isEmpty = true
    · have hn : l.contains "None" = true := by
        cases l with
        | nil => simp [StrOrList.truthy] at hm
        | cons x rest =>
          simp only [List.isEmpty_iff, List.filter_eq_nil_iff] at hv
          have hx : x = "None" := by simpa using hv x (by simp)
          subst hx
          simp
      simp only [hv, Bool.not_true, if_false, List.nil_append]
      rw [if_pos hn]
      simp
    · simp only [Bool.not_eq_true] at hv
      simp [hv]

theorem trends_month_range_condition_isSome (sm em : Option String)
    (hr : (optStrTruthy sm || optStrTruthy em) = true) :
    ∃ rc, trends_month_range_condition sm em = some rc := by
  by_cases h1 : optStrTruthy sm = true <;> by_cases h2 : optStrTruthy em = true <;>
    simp [trends_month_range_condition, h1, h2] <;> simp [h1, h2] at hr

theorem compile_sorts_ok (valid : List String) (l : List SortField)
    (h : ∀ s ∈ l, valid.contains s.field = true) :
    compile_sorts valid l = .ok l := by
  induction l with
  | nil => rfl
  | cons s rest ih =>
    simp only [compile_sorts]
    rw [if_pos (h s (by simp)), ih (fun x hx => h x (by simp [hx]))]
    rfl

theorem compile_sorts_err (valid : List String) (l : List SortField) (s0 : SortField)
    (h : l.find? (fun s => !valid.contains s.field) = some s0) :
    compile_sorts valid l = .error (.badRequest ("Invalid sort field: " ++ s0.field)) := by
  induction l with
  | nil => simp [List.find?] at h
  | cons s rest ih =>
    by_cases hc : valid.contains s.field = true
    · rw [List.find?_cons_of_neg _ (by rw [hc]; simp)] at h
      simp only [compile_sorts]
      rw [if_pos hc, ih h]
      rfl
    · simp only [Bool.not_eq_true] at hc
      rw [List.find?_cons_of_pos _ (by rw [hc]; rfl)] at h
      injection h with h
      subst h
      simp only [compile_sorts]
      rw [if_neg (by rw [hc]; simp)]

/-! ## Claim theorems -/

/-- C9: the three-way matchup resolution applied to the (home_team,
away_team) pair and the one applied to the (home_abbreviation,
away_abbreviation) pair are the same algorithm up to the choice of column
pair — for every pair of input value sets both select the same scenario and
produce structurally identical pair conditions. -/
theorem matchup_resolution_uniform :
    ∀ hs as : List String, resolve_team_matchup hs as = resolve_abbreviation_matchup hs as :=
  fun _ _ => rfl

/-- C8: a categorical month range with start_month November and end_month
February compiles, on both endpoints, to an inclusive between-comparison
over the fixed month ordinals 11 through 2 and therefore matches no rows —
the range does not wrap around the end of the year. -/
theorem month_range_no_wrap :
    trends_month_range_condition (some "November") (some "February")
      = some (.andB .month_not_null (.month_case_between 11 2)) ∧
    (∀ rt : TrendRow,
      TrendCond.eval rt (.andB .month_not_null (.month_case_between 11 2)) = false) ∧
    games_month_range_filters (some "November") (some "February")
      = [.month_case_between 11 2] ∧
    (∀ rg : GameRow, GameCond.eval rg (.month_case_between 11 2) = false) := by
  refine ⟨rfl, ?_, rfl, ?_⟩
  · intro rt
    simp only [TrendCond.eval]
    rcases Nat.lt_or_ge (month_case_filter rt.month) 11 with h | h
    · rw [decide_eq_false (by omega : ¬ (11 ≤ month_case_filter rt.month))]
      simp
    · rw [decide_eq_false (by omega : ¬ (month_case_filter rt.month ≤ 2))]
      simp
  · intro rg
    simp only [GameCond.eval]
    rcases Nat.lt_or_ge (month_case_filter rg.month) 11 with h | h
    · rw [decide_eq_false (by omega : ¬ (11 ≤ month_case_filter rg.month))]
      simp
    · rw [decide_eq_false (by omega : ¬ (month_case_filter rg.month ≤ 2))]
      simp

/-- C1 counterexample: with home_team = away_team = ["A", "B"] (identical
multi-valued sets) the compiled matchup predicate is the forward-OR-swapped
pairing (scenario 3), not the either-side membership disjunction the claim
states: the game (home "A", away "C") falsifies the compiled predicate while
satisfying the claimed one. -/
theorem matchup_identical_multivalued_counterexample :
    resolve_team_matchup ["A", "B"] ["A", "B"]
      = some (.or2 (.and2 (.inV .home ["A", "B"]) (.inV .away ["A", "B"]))
                   (.and2 (.inV .home ["A", "B"]) (.inV .away ["A", "B"]))) ∧
    PairCond.eval "A" "C"
        (.or2 (.and2 (.inV .home ["A", "B"]) (.inV .away ["A", "B"]))
              (.and2 (.inV .home ["A", "B"]) (.inV .away ["A", "B"]))) = false ∧
    PairCond.eval "A" "C"
        (.or2 (.inV .home ["A", "B"]) (.inV .away ["A", "B"])) = true := by
  decide

/-- C1 amended: when both team filters are supplied with identical value
sets, the either-side membership disjunction is compiled only when both
sides are the same singleton set; identical multi-valued sets compile
instead to the disjunction of the forward pairing and the swapped pairing. -/
theorem matchup_identical_sets_resolution (hs as : List String)
    (h1 : hs ≠ []) (h2 : as ≠ []) (h3 : pySetEq hs as = true) :
    resolve_team_matchup hs as =
      (if pySetLen1 hs && pySetLen1 as then
        some (.or2 (.inV .home hs) (.inV .away as))
      else
        some (.or2 (.and2 (.inV .home hs) (.inV .away as))
                   (.and2 (.inV .home as) (.inV .away hs)))) := by
  have he1 : (!hs.isEmpty && !as.isEmpty) = true := by
    cases hs
    · exact absurd rfl h1
    · cases as
      · exact absurd rfl h2
      · rfl
  by_cases hc : (pySetLen1 hs && pySetLen1 as) = true
  · rw [if_pos hc]
    unfold resolve_team_matchup
    rw [if_pos he1, if_pos (by rw [hc, h3]; simp)]
  · rw [if_neg hc]
    unfold resolve_team_matchup
    have hlen : (hs.length == 1 && as.length == 1) = false := by
      by_contra hx
      simp only [Bool.not_eq_false, Bool.and_eq_true, beq_iff_eq] at hx
      exact hc (by
        rw [pySetLen1_of_length_one hx.1, pySetLen1_of_length_one hx.2]
        rfl)
    rw [if_pos he1, if_neg (by simp [hc]), if_neg (by simp [hlen])]

/-- C1 witness: the amended resolution evaluated at home_team = ["A", "B"],
away_team = ["B", "A"] (equal sets, multi-valued). -/
theorem matchup_identical_sets_resolution_witness :
    (["A", "B"] : List String) ≠ [] ∧ (["B", "A"] : List String) ≠ [] ∧
    pySetEq ["A", "B"] ["B", "A"] = true ∧
    resolve_team_matchup ["A", "B"] ["B", "A"] =
      (if pySetLen1 ["A", "B"] && pySetLen1 ["B", "A"] then
        some (.or2 (.inV .home ["A", "B"]) (.inV .away ["B", "A"]))
      else
        some (.or2 (.and2 (.inV .home ["A", "B"]) (.inV .away ["B", "A"]))
                   (.and2 (.inV .home ["B", "A"]) (.inV .away ["A", "B"])))) :=
  ⟨by decide, by decide, by decide,
   matchup_identical_sets_resolution ["A", "B"] ["B", "A"] (by decide) (by decide) (by decide)⟩


/-- C2 amended: on the trends endpoint a discrete month filter and a month
range present together compile to a single disjunction (a row matches iff it
satisfies either part); on the games endpoint the two are appended as
separate top-level conjuncts, so a row must satisfy both. -/
theorem month_discrete_range_combination (m : StrOrList) (sm em : Option String)
    (rt : TrendRow) (rg : GameRow)
    (hm : m.truthy = true) (hr : (optStrTruthy sm || optStrTruthy em) = true) :
    (∃ rc, trends_month_range_condition sm em = some rc ∧
      trends_month_filters (some m) sm em
        = [.orB (sql_or (trends_month_conditions (some m))) rc] ∧
      (trends_month_filters (some m) sm em).all (fun c => c.eval rt)
        = ((sql_or (trends_month_conditions (some m))).eval rt || rc.eval rt)) ∧
    ((games_month_filters (some m) ++ games_month_range_filters sm em).all
        (fun c => c.eval rg)
      = ((games_month_filters (some m)).all (fun c => c.eval rg)
          && (games_month_range_filters sm em).all (fun c => c.eval rg))) := by
  constructor
  · obtain ⟨rc, hrc⟩ := trends_month_range_condition_isSome sm em hr
    refine ⟨rc, hrc, ?_, ?_⟩
    · simp only [trends_month_filters, hrc]
      rw [if_pos (by simp [trends_month_conditions_ne_nil m hm])]
    · simp only [trends_month_filters, hrc]
      rw [if_pos (by simp [trends_month_conditions_ne_nil m hm])]
      simp [TrendCond.eval]
  · simp [List.all_append]

/-- C2 witness: the amended combination at month "January" with range
March–April, on a January trends row and a January games row. -/
theorem month_discrete_range_combination_witness :
    (StrOrList.one "January").truthy = true ∧
    (optStrTruthy (some "March") || optStrTruthy (some "April")) = true ∧
    ((∃ rc, trends_month_range_condition (some "March") (some "April") = some rc ∧
      trends_month_filters (some (.one "January")) (some "March") (some "April")
        = [.orB (sql_or (trends_month_conditions (some (.one "January")))) rc] ∧
      (trends_month_filters (some (.one "January")) (some "March") (some "April")).all
          (fun c => c.eval ⟨"i", "is", "c", some "January", none, none, none, none,
            "s", 1, 1, 0, 2, 50, "t"⟩)
        = ((sql_or (trends_month_conditions (some (.one "January")))).eval
              ⟨"i", "is", "c", some "January", none, none, none, none,
                "s", 1, 1, 0, 2, 50, "t"⟩
            || rc.eval ⟨"i", "is", "c", some "January", none, none, none, none,
                "s", 1, 1, 0, 2, 50, "t"⟩)) ∧
    ((games_month_filters (some (.one "January"))
        ++ games_month_range_filters (some "March") (some "April")).all
        (fun c => c.eval ⟨"i", "d", some "January", none, "H", "A", "H", "A"⟩)
      = ((games_month_filters (some (.one "January"))).all
            (fun c => c.eval ⟨"i", "d", some "January", none, "H", "A", "H", "A"⟩)
          && (games_month_range_filters (some "March") (some "April")).all
            (fun c => c.eval ⟨"i", "d", some "January", none, "H", "A", "H", "A"⟩)))) :=
  ⟨by decide, by decide,
   month_discrete_range_combination (.one "January") (some "March") (some "April")
     ⟨"i", "is", "c", some "January", none, none, none, none, "s", 1, 1, 0, 2, 50, "t"⟩
     ⟨"i", "d", some "January", none, "H", "A", "H", "A"⟩ (by decide) (by decide)⟩

/-- C2 counterexample: a games request with month "January" and range
March–April rejects a January game even though the row satisfies the
discrete month filter — the games endpoint conjoins rather than disjoins
the two month conditions. -/
theorem games_month_conjunction_counterexample :
    (games_filters_list
        { month := some (.one "January"), start_month := some "March",
          end_month := some "April" }).all
      (fun c => c.eval ⟨"i", "d", some "January", none, "H", "A", "H", "A"⟩) = false ∧
    (games_month_filters (some (.one "January"))).all
      (fun c => c.eval ⟨"i", "d", some "January", none, "H", "A", "H", "A"⟩) = true := by
  decide

/-- C3 amended: when the compiled predicate matches zero rows (and the sort
fields are valid), get_trends and get_games return the bare empty JSON list,
not the count/total_count/limit/offset envelope; both store queries (count
and page) still execute. -/
theorem empty_match_returns_bare_list (store : List TrendRow) (ft : TrendRequest)
    (gvalid : List String) (gstore : List GameRow) (fg : GameRequest)
    (hts : match ft.sort_by with
      | some l => ∀ s ∈ l, trend_valid_sort_fields.contains s.field = true
      | none => True)
    (hgs : match fg.sort_by with
      | some l => ∀ s ∈ l, gvalid.contains s.field = true
      | none => True)
    (htz : store.filter (fun r => (trends_filters_list ft).all (fun c => c.eval r)) = [])
    (hgz : gstore.filter (fun r => (games_filters_list fg).all (fun c => c.eval r)) = []) :
    get_trends store ft = ⟨2, .ok .empty_list⟩ ∧
    get_games gvalid gstore fg = ⟨2, .ok .empty_list⟩ := by
  constructor
  · simp only [get_trends]
    rw [htz]
    rcases hsb : ft.sort_by with _ | l
    · simp
    · rw [hsb] at hts
      by_cases hl : l.isEmpty = true
      · simp [hl]
      · simp only [hl, Bool.not_false, if_pos]
        rw [compile_sorts_ok _ _ hts]
        simp [sortTrendRows]
  · simp only [get_games]
    rw [hgz]
    rcases hsb : fg.sort_by with _ | l
    · simp
    · rw [hsb] at hgs
      by_cases hl : l.isEmpty = true
      · simp [hl]
      · simp only [hl, Bool.not_false, if_pos]
        rw [compile_sorts_ok _ _ hgs]
        simp [sortGameRows]

/-- C3 witness: the default trends and games requests over an empty store. -/
theorem empty_match_returns_bare_list_witness :
    get_trends [] {} = ⟨2, .ok .empty_list⟩ ∧
    get_games ["date", "id_string"] [] {} = ⟨2, .ok .empty_list⟩ :=
  empty_match_returns_bare_list [] {} ["date", "id_string"] [] {}
    (by intro s hs; fin_cases hs <;> decide) (by intro s hs; fin_cases hs <;> decide)
    rfl rfl

/-- C3 counterexample: a zero-match trends request returns the bare empty
list value, which is not the envelope with count 0 the claim describes. -/
theorem empty_match_envelope_counterexample :
    (get_trends [] {}).outcome = .ok .empty_list ∧
    TrendsResponse.empty_list ≠ .envelope 5000 0 0 0 [] := by
  constructor
  · decide
  · intro h
    cases h

/-- C6 amended: an unknown sort field makes both endpoints fail with a
400-equivalent error naming the bad field, before the sort is applied and
before the page query — but only after the total-count query has already
executed against the store (exactly one store query on this path). -/
theorem invalid_sort_field_after_count (store : List TrendRow) (ft : TrendRequest)
    (l : List SortField) (s0 : SortField)
    (gvalid : List String) (gstore : List GameRow) (fg : GameRequest)
    (gl : List SortField) (gs0 : SortField)
    (hsb : ft.sort_by = some l)
    (hfind : l.find? (fun s => !trend_valid_sort_fields.contains s.field) = some s0)
    (hgsb : fg.sort_by = some gl)
    (hgfind : gl.find? (fun s => !gvalid.contains s.field) = some gs0) :
    get_trends store ft = ⟨1, .error (.badRequest ("Invalid sort field: " ++ s0.field))⟩ ∧
    get_games gvalid gstore fg
      = ⟨1, .error (.badRequest ("Invalid sort field: " ++ gs0.field))⟩ := by
  have hlne : l.isEmpty = false := by
    cases l
    · simp [List.find?] at hfind
    · rfl
  have hglne : gl.isEmpty = false := by
    cases gl
    · simp [List.find?] at hgfind
    · rfl
  constructor
  · simp only [get_trends]
    rw [hsb]
    simp only [hlne, Bool.not_false, if_pos]
    rw [compile_sorts_err _ _ _ hfind]
  · simp only [get_games]
    rw [hgsb]
    simp only [hglne, Bool.not_false, if_pos]
    rw [compile_sorts_err _ _ _ hgfind]

/-- C6 witness: sort_by = [{field: "bogus"}] on both endpoints with an
empty store. -/
theorem invalid_sort_field_after_count_witness :
    ({ sort_by := some [⟨"bogus", "asc"⟩] } : TrendRequest).sort_by
      = some [⟨"bogus", "asc"⟩] ∧
    ([⟨"bogus", "asc"⟩] : List SortField).find?
        (fun s => !trend_valid_sort_fields.contains s.field) = some ⟨"bogus", "asc"⟩ ∧
    get_trends [] { sort_by := some [⟨"bogus", "asc"⟩] }
      = ⟨1, .error (.badRequest ("Invalid sort field: " ++ "bogus"))⟩ ∧
    get_games ["date"] [] { sort_by := some [⟨"bogus", "asc"⟩] }
      = ⟨1, .error (.badRequest ("Invalid sort field: " ++ "bogus"))⟩ := by
  refine ⟨rfl, by decide, ?_⟩
  exact invalid_sort_field_after_count [] { sort_by := some [⟨"bogus", "asc"⟩] }
    [⟨"bogus", "asc"⟩] ⟨"bogus", "asc"⟩ ["date"] [] { sort_by := some [⟨"bogus", "asc"⟩] }
    [⟨"bogus", "asc"⟩] ⟨"bogus", "asc"⟩ rfl (by decide) rfl (by decide)

/-- C6 counterexample: with one row in the store and sort field "bogus",
the run reports one executed store query (the total-count query) together
with the 400 error — refuting the claim that no query is executed on the
invalid-sort path. -/
theorem invalid_sort_field_counterexample :
    (get_trends [⟨"i", "is", "c", some "October", some "Sunday", some false,
        some "3.0", some "40 or less", "since 2006-2007", 1, 1, 0, 2, 50, "t"⟩]
      { sort_by := some [⟨"bogus", "asc"⟩] }).store_queries = 1 ∧
    (get_trends [⟨"i", "is", "c", some "October", some "Sunday", some false,
        some "3.0", some "40 or less", "since 2006-2007", 1, 1, 0, 2, 50, "t"⟩]
      { sort_by := some [⟨"bogus", "asc"⟩] }).outcome
      = .error (.badRequest "Invalid sort field: bogus") := by
  decide


theorem filter_mem_any_eq (l : List String) (sp : String) :
    (decide (sp ∈ l) && !decide (sp = "None"))
      = l.any (fun a => a != "None" && sp == a) := by
  rw [Bool.eq_iff_iff]
  simp only [Bool.and_eq_true, decide_eq_true_eq, Bool.not_eq_true',
    List.any_eq_true, bne_iff_ne, beq_iff_eq, ne_eq, decide_eq_false_iff_not]
  constructor
  · rintro ⟨h1, h2⟩
    exact ⟨sp, h1, h2, rfl⟩
  · rintro ⟨a, ha, hne, rfl⟩
    exact ⟨ha, hne⟩

theorem decide_eq_beq (a b : String) : decide (a = b) = (a == b) := by
  rw [Bool.eq_iff_iff]
  simp

/-- C7: an explicit spread exact-value list compiles to membership over its
non-"None" members OR an is-null condition exactly when the "None" sentinel
is present, and an empty list after removing the sentinel contributes no
membership condition; in particular exact = ["None", "3.0"] matches exactly
the rows whose spread is null or equals "3.0". -/
theorem spread_exact_null_sentinel (l : List String) (row : TrendRow) (hl : l ≠ []) :
    ((trends_spread_filters (some (.filt (some (.many l)) none none))).all
        (fun c => c.eval row)
      = ((l.filter (fun s => s != "None")).any (fun s => row.spread == some s)
          || (l.contains "None" && row.spread == none))) ∧
    ((trends_spread_filters (some (.filt (some (.many ["None", "3.0"])) none none))).all
        (fun c => c.eval row)
      = (row.spread == none || row.spread == some "3.0")) := by
  constructor
  · have htr : (StrOrList.many l).truthy = true := by
      simp [StrOrList.truthy, hl]
    simp only [trends_spread_filters, htr, if_true, StrOrList.toList,
      List.append_nil, List.nil_append]
    by_cases hnn : (l.filter (fun s => s != "None")).isEmpty = true
    · have hcn : l.contains "None" = true := by
        cases l with
        | nil => exact absurd rfl hl
        | cons x rest =>
          simp only [List.isEmpty_iff, List.filter_eq_nil_iff] at hnn
          have hx : x = "None" := by simpa using hnn x (by simp)
          subst hx
          simp
      simp only [hnn, Bool.not_true, if_false, hcn, if_true, List.nil_append]
      rcases hsp : row.spread with _ | sp <;>
        simp [sql_or, TrendCond.eval, hsp, List.isEmpty_iff.mp hnn, hcn]
    · simp only [Bool.not_eq_true] at hnn
      simp only [hnn, Bool.not_false, if_true]
      by_cases hcn : l.contains "None" = true
      · simp only [hcn, if_true]
        rcases hsp : row.spread with _ | sp
        · simp [sql_or, TrendCond.eval, hsp, hcn]
        · simp [sql_or, TrendCond.eval, hsp, hcn]
          exact filter_mem_any_eq l sp
      · simp only [hcn, if_false, List.append_nil]
        rcases hsp : row.spread with _ | sp
        · simp [sql_or, TrendCond.eval, hsp, hcn]
        · simp [sql_or, TrendCond.eval, hsp, hcn]
          exact filter_mem_any_eq l sp
  · rcases hsp : row.spread with _ | sp
    · simp [trends_spread_filters, sql_or, TrendCond.eval, hsp, StrOrList.truthy,
        StrOrList.toList]
    · simp [trends_spread_filters, sql_or, TrendCond.eval, hsp, StrOrList.truthy,
        StrOrList.toList]
      exact decide_eq_beq sp "3.0"

/-- C7 witness: the exact list ["None", "3.0"] evaluated on a row whose
spread is "3.0". -/
theorem spread_exact_null_sentinel_witness :
    (["None", "3.0"] : List String) ≠ [] ∧
    ((trends_spread_filters (some (.filt (some (.many ["None", "3.0"])) none none))).all
        (fun c => c.eval ⟨"i", "is", "c", some "October", none, none, some "3.0", none,
          "s", 1, 1, 0, 2, 50, "t"⟩)
      = (((["None", "3.0"] : List String).filter (fun s => s != "None")).any
            (fun s => (⟨"i", "is", "c", some "October", none, none, some "3.0", none,
                "s", 1, 1, 0, 2, 50, "t"⟩ : TrendRow).spread == some s)
          || ((["None", "3.0"] : List String).contains "None"
              && ((⟨"i", "is", "c", some "October", none, none, some "3.0", none,
                  "s", 1, 1, 0, 2, 50, "t"⟩ : TrendRow).spread == none)))) :=
  ⟨by decide,
   (spread_exact_null_sentinel ["None", "3.0"]
     ⟨"i", "is", "c", some "October", none, none, some "3.0", none,
       "s", 1, 1, 0, 2, 50, "t"⟩ (by decide)).1⟩

/-- C10: the validator accepts win_percentage 0.0 (it is within 0–100), yet
get_trends adds no win_percentage condition for the single value 0.0 — the
Python truthiness test skips it — so the compiled filters and the full
response equal those of the same request with win_percentage unset. -/
theorem win_percentage_zero_noop :
    validate_win_percentage (some (.one 0)) = true ∧
    trends_win_percentage_filters (some (.one 0)) = trends_win_percentage_filters none ∧
    ∀ (store : List TrendRow) (f : TrendRequest),
      get_trends store { f with win_percentage := some (.one 0) }
        = get_trends store { f with win_percentage := none } := by
  refine ⟨by decide, by decide, ?_⟩
  intro store f
  have h0 : RatOrList.truthy (.one 0) = false := by decide
  have hfl : trends_filters_list { f with win_percentage := some (.one 0) }
      = trends_filters_list { f with win_percentage := none } := by
    simp [trends_filters_list, trends_win_percentage_filters, h0]
  simp only [get_trends, hfl]

set_option maxRecDepth 1000000

/-- C4 (code bug evidence): starting from a weekly-trends cache holding only
the pinned entry, 100 puts of distinct other keys evict it — capacity-based
LRU eviction does not exempt INITIAL_WEEKLY_TRENDS_KEY, contradicting the
source docstring "This entry should never be removed". -/
theorem weekly_trends_pinned_entry_evicted :
    ((List.range 100).foldl
        (fun c i => set_weekly_trends_cache ("k" ++ Nat.repr i) 0 c)
        (set_initial_weekly_trends_cache 7 (weekly_trends_cache_empty Nat))).containsKey
      INITIAL_WEEKLY_TRENDS_KEY = false ∧
    (((List.range 100).foldl
        (fun c i => set_weekly_trends_cache ("k" ++ Nat.repr i) 0 c)
        (set_initial_weekly_trends_cache 7 (weekly_trends_cache_empty Nat))).get
      INITIAL_WEEKLY_TRENDS_KEY).1 = none ∧
    (List.range 100).all
      (fun i => decide (("k" ++ Nat.repr i) ≠ INITIAL_WEEKLY_TRENDS_KEY)) = true := by
  decide

/-- C5 amended: two well-formed documents receive the same cache key exactly
when their canonical forms — equal up to object field insertion order, with
list element order significant — coincide; so the key is invariant under
field insertion order and differs whenever any semantic value (including
list order) differs. -/
theorem cache_key_eq_iff_canon (d1 d2 : PyJson)
    (h1 : wfB d1 = true) (h2 : wfB d2 = true) :
    generate_cache_key d1 = generate_cache_key d2 ↔ canon d1 = canon d2 := by
  constructor
  · intro h
    exact ser_inj _ _ (canon_safe d1 h1) (canon_safe d2 h2) (congrArg String.data h)
  · intro h
    unfold generate_cache_key
    rw [h]

/-- C5 witness: two documents differing only in field insertion order
receive equal cache keys. -/
theorem cache_key_eq_iff_canon_witness :
    wfB (.obj [("month", .str "September"), ("category", .str "over")]) = true ∧
    wfB (.obj [("category", .str "over"), ("month", .str "September")]) = true ∧
    generate_cache_key (.obj [("month", .str "September"), ("category", .str "over")])
      = generate_cache_key (.obj [("category", .str "over"), ("month", .str "September")]) :=
  ⟨by decide, by decide,
   (cache_key_eq_iff_canon
      (.obj [("month", .str "September"), ("category", .str "over")])
      (.obj [("category", .str "over"), ("month", .str "September")])
      (by decide) (by decide)).mpr rfl⟩

/-- C5 counterexample: reordering the elements of the month list — an order
the month filter treats as insignificant (both orders compile to membership
conditions with identical evaluation) — changes the cache key, refuting the
claimed invariance under list element order. -/
theorem cache_key_list_order_counterexample :
    generate_cache_key (.obj [("month", .arr [.str "February", .str "January"])])
      ≠ generate_cache_key (.obj [("month", .arr [.str "January", .str "February"])]) ∧
    wfB (.obj [("month", .arr [.str "February", .str "January"])]) = true ∧
    wfB (.obj [("month", .arr [.str "January", .str "February"])]) = true ∧
    trends_month_conditions (some (.many ["February", "January"]))
      = [.month_in ["February", "January"]] ∧
    trends_month_conditions (some (.many ["January", "February"]))
      = [.month_in ["January", "February"]] ∧
    (∀ rt : TrendRow, TrendCond.eval rt (.month_in ["February", "January"])
      = TrendCond.eval rt (.month_in ["January", "February"])) := by
  refine ⟨by decide, by decide, by decide, by decide, by decide, ?_⟩
  intro rt
  rcases hm : rt.month with _ | m
  · simp [TrendCond.eval, hm]
  · simp only [TrendCond.eval, hm]
    rw [Bool.eq_iff_iff]
    simp [or_comm]

end NflTrendsApi
